import Mathlib

/-!
# Firebug `SourceFile` (debugger/script/sourceFile.js)

A shallow embedding of the lazily loaded source unit of the Firebug script
debugger and of its load state machine.

Conventions of the embedding

* A JavaScript object is a structure and a method is a function that takes the
  object and returns the object after the call, the observable effects of the
  call in order, and how the call ended (a returned value or a thrown
  `TypeError`).
* A field that the constructor does not assign (`loaded`, `inProgress`,
  `lines`) starts out `undefined`; the two flags are only ever tested for
  truth, so they are booleans starting at `false`, and `lines` is an `Option`.
* A function supplied by a caller is opaque: it is named by a number, running
  it is recorded as an event, it does not throw and it does not call back into
  the unit.
* `Trace.sysout` and `TraceError.sysout` only write diagnostics; they are not
  recorded.
* `Str.splitLines` lives in `firebug/lib/string`, outside this file, and is a
  parameter `splitLines` of everything that depends on it; where a claim speaks
  of the split itself, the parameter is `Str.splitLines` below, a model of it
  from the spec.
* `DebuggerLib.getThreadDebuggeeGlobalForContext` and the debuggee global it
  returns are outside this file and are parameters of the static methods.
* A line number is an integer.
-/

namespace Firebug

/-- A value handed to (or returned to) a caller. -/
inductive Value where
  | undefined
  | null
  | string (s : String)
  | array (lines : List String)
  deriving DecidableEq, Repr

/-- The argument a queued callback is run with: `this.lines` (an array once
assigned, `undefined` before) or the literal `null`. -/
inductive LinesArg where
  | undefined
  | null
  | array (lines : List String)
  deriving DecidableEq, Repr

/-- The same value as seen by a caller-supplied function. -/
def LinesArg.toValue : LinesArg → Value
  | .undefined => .undefined
  | .null => .null
  | .array lines => .array lines

/-- The value of the field `this.lines`. -/
def linesField : Option (List String) → LinesArg
  | none => .undefined
  | some lines => .array lines

/-- A function stored in `this.callbacks`: either the function a caller gave to
`loadScriptLines`, or the closure that `getLine` builds (lines 89-97) around a
line number and the caller's optional function. -/
inductive Callback where
  | client (id : Nat)
  | lineReader (lineNo : Int) (callback : Option Nat)
  deriving DecidableEq, Repr

/-- The object built by `new SourceFile(context, actor, href, isBlackBoxed)`.
The `context` is not stored: the one thing read from it, `activeThread`, is an
argument of the calls that read it. -/
structure SourceFile where
  actor : String
  href : String
  isBlackBoxed : Bool
  contentType : Option String
  compilation_unit_type : String
  callbacks : List Callback
  displayName : String
  loaded : Bool
  inProgress : Bool
  lines : Option (List String)
  deriving DecidableEq, Repr

/-- The constructor, lines 32-51. -/
def SourceFile.create (actor href : String) (isBlackBoxed : Bool) : SourceFile where
  actor := actor
  href := href
  isBlackBoxed := isBlackBoxed
  contentType := none
  compilation_unit_type := "script_tag"
  callbacks := []
  displayName := href
  loaded := false
  inProgress := false
  lines := none

/-- An observable effect of a call. -/
inductive Event where
  /-- a caller-supplied function ran with this argument -/
  | called (callback : Nat) (arg : Value)
  /-- `threadClient.source(this).source(this.onSourceLoaded.bind(this))` -/
  | fetch (file : SourceFile)
  /-- `Events.dispatch(Firebug.modules, "onSourceLoaded", [this])` -/
  | sourceLoaded (file : SourceFile)
  deriving DecidableEq, Repr

/-- How a call ended. -/
inductive Outcome where
  | returned (v : Value)
  | threw
  deriving DecidableEq, Repr

/-- The unit after a call, what the call did, and how it ended. -/
structure Result where
  file : SourceFile
  events : List Event
  outcome : Outcome
  deriving DecidableEq, Repr

/-- The response packet handed to the fetch continuation. -/
structure Response where
  error : Option String
  source : Option String
  contentType : Option String
  deriving DecidableEq, Repr

/-- Truth of `response.error`: absent and the empty string are falsy. -/
def Response.hasError (response : Response) : Bool :=
  match response.error with
  | none => false
  | some e => e != ""

/-- `if (callback) callback(v)` for an optional caller-supplied function. -/
def callIfGiven (callback : Option Nat) (v : Value) : List Event :=
  match callback with
  | none => []
  | some id => [.called id v]

/-- `lines[lineNo]` for an integer index: the element, or `undefined`. -/
def elementAt (lines : List String) (lineNo : Int) : Value :=
  if lineNo < 0 then .undefined
  else match lines[lineNo.toNat]? with
    | some s => .string s
    | none => .undefined

/-- The body of the closure of `getLine`, lines 91-93:
`var line; if (lineNo >= 0 && lineNo < lines.length) line = lines[lineNo];`
on an array. -/
def lineOf (lines : List String) (lineNo : Int) : Value :=
  if 0 ≤ lineNo ∧ lineNo < (lines.length : Int) then elementAt lines lineNo
  else .undefined

/-- Running a stored callback with an argument: the events, or `none` when the
call throws. The closure of `getLine` reads `lines.length` whenever
`lineNo >= 0`, which is a `TypeError` on `null` and on `undefined`. -/
def Callback.invoke : Callback → LinesArg → Option (List Event)
  | .client id, arg => some [.called id arg.toValue]
  | .lineReader lineNo callback, .array lines =>
      some (callIfGiven callback (lineOf lines lineNo))
  | .lineReader lineNo callback, _ =>
      if 0 ≤ lineNo then none else some (callIfGiven callback .undefined)

/-- The method `loadScriptLines`, lines 107-142. -/
def SourceFile.loadScriptLines (activeThread : Bool) (self : SourceFile)
    (callback : Callback) : Result :=
  if self.loaded then
    match callback.invoke (linesField self.lines) with
    | none => ⟨self, [], .threw⟩
    | some evs => ⟨self, evs, .returned (linesField self.lines).toValue⟩
  else
    let self := { self with callbacks := self.callbacks ++ [callback] }
    if self.inProgress then
      ⟨self, [], .returned .undefined⟩
    else
      let self := { self with inProgress := true }
      if !activeThread then
        match callback.invoke .null with
        | none => ⟨self, [], .threw⟩
        | some evs => ⟨self, evs, .returned .undefined⟩
      else
        ⟨self, [.fetch self], .returned .undefined⟩

/-- The method `getLine`, lines 72-98. -/
def SourceFile.getLine (activeThread : Bool) (self : SourceFile) (lineNo : Int)
    (callback : Option Nat) : Result :=
  if self.loaded then
    if 0 ≤ lineNo then
      match self.lines with
      | none => ⟨self, [], .threw⟩
      | some lines =>
        if lineNo < (lines.length : Int) then
          let source := elementAt lines lineNo
          ⟨self, callIfGiven callback source, .returned source⟩
        else
          ⟨self, [], .returned .undefined⟩
    else
      ⟨self, [], .returned .undefined⟩
  else
    let r := self.loadScriptLines activeThread (.lineReader lineNo callback)
    match r.outcome with
    | .threw => r
    | .returned _ => { r with outcome := .returned .undefined }

/-- The replacement `.replace(/\r\n/gm, "\n")` on the characters of a string:
every carriage return that is directly followed by a line feed is dropped. -/
def replaceCRLF : List Char → List Char
  | [] => []
  | c :: rest =>
    if c = Char.ofNat 13 ∧ rest.head? = some (Char.ofNat 10) then replaceCRLF rest
    else c :: replaceCRLF rest

/-- The loop of lines 170-171 over the queue, with `this.lines` as argument:
the events so far and whether a callback threw (which ends the loop). -/
def notifyAll : List Callback → LinesArg → List Event × Bool
  | [], _ => ([], false)
  | cb :: rest, arg =>
    match cb.invoke arg with
    | none => ([], true)
    | some evs =>
      let (more, threw) := notifyAll rest arg
      (evs ++ more, threw)

/-- The fetch continuation `onSourceLoaded`, lines 147-175. -/
def SourceFile.onSourceLoaded (splitLines : String → List String) (self : SourceFile)
    (response : Response) : Result :=
  if response.hasError then
    ⟨self, [], .returned .undefined⟩
  else
    match response.source with
    | none => ⟨self, [], .threw⟩
    | some text =>
      let source := String.mk (replaceCRLF text.data)
      let self := { self with
        loaded := true
        inProgress := false
        lines := some (splitLines source)
        contentType := response.contentType }
      let (evs, threw) := notifyAll self.callbacks (linesField self.lines)
      if threw then ⟨self, evs, .threw⟩
      else ⟨self, evs ++ [.sourceLoaded self], .returned .undefined⟩

/-- The accessor `getURL`, lines 56-59. -/
def SourceFile.getURL (self : SourceFile) : String := self.href

/-- The accessor `getDisplayName`, lines 177-180. -/
def SourceFile.getDisplayName (self : SourceFile) : String := self.displayName

/-! ## The unit in its session

The single-threaded session around one unit: callers make public calls, and the
transport answers each fetch it was asked for by running the continuation once.
-/

/-- What can happen to a unit: a public call, made while the session has an
active thread client or not, or the answer to an outstanding fetch. -/
inductive Op where
  | getLine (activeThread : Bool) (lineNo : Int) (callback : Option Nat)
  | loadScriptLines (activeThread : Bool) (callback : Nat)
  | completion (response : Response)
  deriving DecidableEq, Repr

/-- Public calls, as opposed to fetch completions. -/
def Op.isCall : Op → Bool
  | .completion _ => false
  | _ => true

/-- The function a public call hands to `loadScriptLines` when the unit is not
loaded. -/
def Op.registers : Op → List Callback
  | .getLine _ lineNo callback => [.lineReader lineNo callback]
  | .loadScriptLines _ callback => [.client callback]
  | .completion _ => []

/-- Fetch requests among some events. -/
def Event.isFetch : Event → Bool
  | .fetch _ => true
  | _ => false

/-- Number of times the Fetcher was invoked. -/
def fetchCount (log : List Event) : Nat := log.countP Event.isFetch

/-- A unit, the number of fetches not yet answered, and everything observed so
far. -/
structure World where
  file : SourceFile
  pending : Nat
  log : List Event
  deriving DecidableEq, Repr

/-- A freshly constructed unit in a session where nothing has happened yet. -/
def World.fresh (actor href : String) (isBlackBoxed : Bool) : World :=
  ⟨SourceFile.create actor href isBlackBoxed, 0, []⟩

/-- The world after a call on the unit. -/
def World.after (w : World) (r : Result) : World :=
  ⟨r.file, w.pending + fetchCount r.events, w.log ++ r.events⟩

/-- One step. A completion runs `onSourceLoaded` only when a fetch is
outstanding: the continuation is bound to the fetch and nothing else calls it. -/
def World.step (splitLines : String → List String) (w : World) : Op → World
  | .getLine activeThread lineNo callback =>
      w.after (w.file.getLine activeThread lineNo callback)
  | .loadScriptLines activeThread callback =>
      w.after (w.file.loadScriptLines activeThread (.client callback))
  | .completion response =>
      if w.pending = 0 then w
      else
        let r := w.file.onSourceLoaded splitLines response
        ⟨r.file, w.pending - 1 + fetchCount r.events, w.log ++ r.events⟩

/-- A sequence of steps. -/
def World.run (splitLines : String → List String) (w : World) (ops : List Op) : World :=
  ops.foldl (World.step splitLines) w

/-- What a stored callback does when it is run with the loaded lines. -/
def Callback.deliver (lines : List String) : Callback → List Event
  | .client id => [.called id (.array lines)]
  | .lineReader lineNo callback => callIfGiven callback (lineOf lines lineNo)

/-- The invariant behind single fetching: once a fetch has been issued the unit
is loading or loaded, and no second one has been issued. -/
def FetchedOnce (w : World) : Prop :=
  fetchCount w.log = 0 ∨
    (fetchCount w.log = 1 ∧ (w.file.loaded = true ∨ w.file.inProgress = true))

/-- A loaded two-line unit with an empty queue. -/
def loadedSample : SourceFile :=
  { SourceFile.create "actor1" "u.js" false with
    loaded := true, lines := some ["a", "b"], contentType := some "text/javascript" }

/-! ## Line splitting -/

/-- The carriage return. -/
def CR : Char := Char.ofNat 13

/-- The line feed. -/
def LF : Char := Char.ofNat 10

/-- The segments of a text between its line feeds, in order. -/
def splitAtLF : List Char → List (List Char)
  | [] => [[]]
  | c :: rest =>
    if c = LF then [] :: splitAtLF rest
    else
      match splitAtLF rest with
      | [] => [[c]]
      | seg :: segs => (c :: seg) :: segs

/-- Modelled from the spec: `Str.splitLines` of `firebug/lib/string`, which is
not part of this file. The spec has the text, once its line endings are in the
single newline convention, "split into an ordered sequence of lines": the lines
are the segments between the line feeds. -/
def Str.splitLines (text : String) : List String :=
  (splitAtLF text.data).map String.mk

/-- Every carriage return of the text is directly followed by a line feed. -/
def everyCRBeforeLF : List Char → Bool
  | [] => true
  | c :: rest => (c != CR || rest.head? == some LF) && everyCRBeforeLF rest

/-! ## Function resolution -/

/-- The script of a debuggee function: `{url, startLine}`. -/
structure Script where
  url : String
  startLine : Nat
  deriving DecidableEq, Repr

/-- The unwrapped debuggee value `dbgFn`; `script` is absent for native
functions. -/
structure DebuggerObject where
  script : Option Script
  deriving DecidableEq, Repr

/-- The debuggee global `dbgGlobal`, through the one expression it is used in:
`dbgGlobal.makeDebuggeeValue(fn).unwrap()`, which may yield nothing. -/
structure DebuggeeGlobal (Fn : Type) where
  makeDebuggeeValueUnwrap : Fn → Option DebuggerObject

/-- Modelled from the spec: the object built by `new SourceLink(url, line, type)`
of `firebug/debugger/script/sourceLink`, which is not part of this file. The
spec has it as the location reference `(url, startLine, kind)`: the three
constructor arguments, kept as they are. -/
structure SourceLink where
  url : String
  startLine : Nat
  kind : String
  deriving DecidableEq, Repr

/-- The static method `findScriptForFunctionInContext`, lines 191-212.
`DebuggerLib.getThreadDebuggeeGlobalForContext` is outside this file and is a
parameter. -/
def SourceFile.findScriptForFunctionInContext {Context Fn : Type}
    (getThreadDebuggeeGlobalForContext : Context → Option (DebuggeeGlobal Fn))
    (context : Context) (fn : Fn) : Option Script :=
  match getThreadDebuggeeGlobalForContext context with
  | none => none
  | some dbgGlobal =>
    match dbgGlobal.makeDebuggeeValueUnwrap fn with
    | none => none
    | some dbgFn =>
      match dbgFn.script with
      | none => none
      | some script => some script

/-- The static method `getSourceLinkForScript`, lines 220-224. -/
def SourceFile.getSourceLinkForScript (script : Script) : SourceLink :=
  ⟨script.url, script.startLine, "js"⟩

/-- The static method `findSourceForFunction`, lines 214-218. -/
def SourceFile.findSourceForFunction {Context Fn : Type}
    (getThreadDebuggeeGlobalForContext : Context → Option (DebuggeeGlobal Fn))
    (fn : Fn) (context : Context) : Option SourceLink :=
  match SourceFile.findScriptForFunctionInContext getThreadDebuggeeGlobalForContext
      context fn with
  | some script => some (SourceFile.getSourceLinkForScript script)
  | none => none

/-! ## The completion handler in time -/

/-- The effects of `onSourceLoaded` in order, each with the unit as it is at the
moment of the effect: the assignments of lines 164-167 come before the loop and
the dispatch, and nothing is assigned after them. -/
def SourceFile.onSourceLoadedTimeline (splitLines : String → List String)
    (self : SourceFile) (response : Response) : List (SourceFile × Event) :=
  if response.hasError then
    []
  else
    match response.source with
    | none => []
    | some text =>
      let source := String.mk (replaceCRLF text.data)
      let self := { self with
        loaded := true
        inProgress := false
        lines := some (splitLines source)
        contentType := response.contentType }
      let (evs, threw) := notifyAll self.callbacks (linesField self.lines)
      if threw then evs.map (fun e => (self, e))
      else (evs ++ [Event.sourceLoaded self]).map (fun e => (self, e))

/-! ## Invariants of the session -/

/-- The load flags and the data agree, and the count of outstanding fetches
agrees with the flags: a loaded unit has lines, is not in progress and has no
fetch outstanding; a unit that is not loaded has neither lines nor a content
type and at most one fetch outstanding, and when it is not in progress either,
no fetch is outstanding and the queue is empty. -/
def DataWithLoad (w : World) : Prop :=
  (w.file.loaded = true →
      w.file.lines.isSome = true ∧ w.file.inProgress = false ∧ w.pending = 0) ∧
    (w.file.loaded = false →
      w.file.lines = none ∧ w.file.contentType = none ∧ w.pending ≤ 1 ∧
        (w.file.inProgress = false → w.pending = 0 ∧ w.file.callbacks = []))

/-- A context whose every function has the script `foo.js`, line 10. -/
def fooGlobal : Unit → Option (DebuggeeGlobal Nat) :=
  fun _ => some ⟨fun _ => some ⟨some ⟨"foo.js", 10⟩⟩⟩

/-- A unit whose load is in progress, with two waiters: a caller of
`loadScriptLines` and a caller of `getLine(0, cb)`. -/
def loadingSample : SourceFile :=
  { SourceFile.create "actor1" "u.js" false with
    callbacks := [.client 1, .lineReader 0 (some 2)], inProgress := true }

/-- A successful response. -/
def okResponse : Response := ⟨none, some "ab", some "text/javascript"⟩

/-- A response that carries an error. -/
def errorResponse : Response := ⟨some "noSuchActor", none, none⟩

/-! ## Basic facts -/

theorem fetchCount_append (xs ys : List Event) :
    fetchCount (xs ++ ys) = fetchCount xs + fetchCount ys := by
  simp [fetchCount, List.countP_append]

theorem fetchCount_callIfGiven (callback : Option Nat) (v : Value) :
    fetchCount (callIfGiven callback v) = 0 := by
  cases callback <;> simp [callIfGiven, fetchCount, Event.isFetch]

theorem fetchCount_invoke (cb : Callback) (arg : LinesArg) (evs : List Event)
    (h : cb.invoke arg = some evs) : fetchCount evs = 0 := by
  cases cb with
  | client id =>
    simp only [Callback.invoke, Option.some.injEq] at h
    subst h
    simp [fetchCount, Event.isFetch]
  | lineReader lineNo callback =>
    cases arg <;> simp only [Callback.invoke] at h
    · split at h
      · exact absurd h (by simp)
      · simp only [Option.some.injEq] at h
        subst h
        exact fetchCount_callIfGiven _ _
    · split at h
      · exact absurd h (by simp)
      · simp only [Option.some.injEq] at h
        subst h
        exact fetchCount_callIfGiven _ _
    · simp only [Option.some.injEq] at h
      subst h
      exact fetchCount_callIfGiven _ _

theorem invoke_array (cb : Callback) (lines : List String) :
    cb.invoke (.array lines) = some (cb.deliver lines) := by
  cases cb <;> simp [Callback.invoke, Callback.deliver, LinesArg.toValue]

theorem notifyAll_array (cbs : List Callback) (lines : List String) :
    notifyAll cbs (.array lines) = (cbs.flatMap (Callback.deliver lines), false) := by
  induction cbs with
  | nil => simp [notifyAll]
  | cons cb rest ih => simp [notifyAll, invoke_array, ih]

theorem fetchCount_deliver (lines : List String) (cbs : List Callback) :
    fetchCount (cbs.flatMap (Callback.deliver lines)) = 0 := by
  induction cbs with
  | nil => simp [fetchCount]
  | cons cb rest ih =>
    rw [List.flatMap_cons, fetchCount_append, ih]
    have := fetchCount_invoke cb (.array lines) _ (invoke_array cb lines)
    omega

theorem fetchCount_notifyAll (cbs : List Callback) (arg : LinesArg) :
    fetchCount (notifyAll cbs arg).1 = 0 := by
  induction cbs with
  | nil => simp [notifyAll, fetchCount]
  | cons cb rest ih =>
    simp only [notifyAll]
    cases h : cb.invoke arg with
    | none => simp [fetchCount]
    | some evs =>
      simp only [fetchCount_append, fetchCount_invoke cb arg evs h, ih, Nat.zero_add]

/-- While a load is in progress a call to `loadScriptLines` only appends its
callback to the queue. -/
theorem loadScriptLines_inProgress (activeThread : Bool) (self : SourceFile)
    (callback : Callback) (hl : self.loaded = false) (hp : self.inProgress = true) :
    self.loadScriptLines activeThread callback =
      ⟨{ self with callbacks := self.callbacks ++ [callback] }, [], .returned .undefined⟩ := by
  simp [SourceFile.loadScriptLines, hl, hp]

/-- While a load is in progress a call to `getLine` only appends its closure to
the queue. -/
theorem getLine_inProgress (activeThread : Bool) (self : SourceFile) (lineNo : Int)
    (callback : Option Nat) (hl : self.loaded = false) (hp : self.inProgress = true) :
    self.getLine activeThread lineNo callback =
      ⟨{ self with callbacks := self.callbacks ++ [.lineReader lineNo callback] }, [],
        .returned .undefined⟩ := by
  simp [SourceFile.getLine, hl, loadScriptLines_inProgress _ _ _ hl hp]

theorem step_inProgress (splitLines : String → List String) (w : World) (op : Op)
    (hc : op.isCall = true) (hl : w.file.loaded = false) (hp : w.file.inProgress = true) :
    World.step splitLines w op =
      ⟨{ w.file with callbacks := w.file.callbacks ++ op.registers }, w.pending, w.log⟩ := by
  cases op with
  | getLine a n cb =>
    simp [World.step, World.after, getLine_inProgress _ _ _ _ hl hp, Op.registers, fetchCount]
  | loadScriptLines a cb =>
    simp [World.step, World.after, loadScriptLines_inProgress _ _ _ hl hp, Op.registers,
      fetchCount]
  | completion r => simp [Op.isCall] at hc

theorem run_inProgress (splitLines : String → List String) (ops : List Op) :
    ∀ (w : World), (∀ op ∈ ops, op.isCall = true) → w.file.loaded = false →
      w.file.inProgress = true →
      World.run splitLines w ops =
        ⟨{ w.file with callbacks := w.file.callbacks ++ ops.flatMap Op.registers },
          w.pending, w.log⟩ := by
  induction ops with
  | nil => intro w _ _ _; simp [World.run]
  | cons op rest ih =>
    intro w hc hl hp
    have hop : op.isCall = true := hc op (List.mem_cons_self _ _)
    have hrest : ∀ o ∈ rest, o.isCall = true := fun o ho => hc o (List.mem_cons_of_mem _ ho)
    have hstep := step_inProgress splitLines w op hop hl hp
    have hrun : World.run splitLines w (op :: rest) =
        World.run splitLines (World.step splitLines w op) rest := rfl
    rw [hrun, hstep, ih _ hrest (by exact hl) (by exact hp)]
    simp [List.append_assoc]

theorem registers_loadScriptLines (activeThread : Bool) (ids : List Nat) :
    (ids.map (Op.loadScriptLines activeThread)).flatMap Op.registers =
      ids.map Callback.client := by
  induction ids with
  | nil => rfl
  | cons c cs ih => simp [List.flatMap_cons, Op.registers, ih]

/-- What a call to `loadScriptLines` can do to the number of fetches: none when
the unit is loaded or loading, at most one otherwise, and afterwards the unit is
loaded or loading. -/
theorem loadScriptLines_fetch (activeThread : Bool) (self : SourceFile) (callback : Callback) :
    ((self.loaded = true ∨ self.inProgress = true) →
        fetchCount (self.loadScriptLines activeThread callback).events = 0) ∧
      fetchCount (self.loadScriptLines activeThread callback).events ≤ 1 ∧
      ((self.loadScriptLines activeThread callback).file.loaded = true ∨
        (self.loadScriptLines activeThread callback).file.inProgress = true) := by
  unfold SourceFile.loadScriptLines
  cases hl : self.loaded
  · cases hp : self.inProgress
    · cases activeThread
      · cases h : callback.invoke .null with
        | none => simp [fetchCount]
        | some evs => simp [fetchCount_invoke callback _ evs h]
      · simp [fetchCount, Event.isFetch]
    · simp [fetchCount, hp]
  · cases h : callback.invoke (linesField self.lines) with
    | none => simp [fetchCount, hl]
    | some evs => simp [fetchCount_invoke callback _ evs h, hl]

theorem getLine_fetch (activeThread : Bool) (self : SourceFile) (lineNo : Int)
    (callback : Option Nat) :
    ((self.loaded = true ∨ self.inProgress = true) →
        fetchCount (self.getLine activeThread lineNo callback).events = 0) ∧
      fetchCount (self.getLine activeThread lineNo callback).events ≤ 1 ∧
      ((self.getLine activeThread lineNo callback).file.loaded = true ∨
        (self.getLine activeThread lineNo callback).file.inProgress = true) := by
  unfold SourceFile.getLine
  cases hl : self.loaded
  · have h := loadScriptLines_fetch activeThread self (.lineReader lineNo callback)
    simp only [hl, Bool.false_eq_true, false_or, if_false] at h ⊢
    cases ho : (self.loadScriptLines activeThread (.lineReader lineNo callback)).outcome <;>
      simpa [ho] using h
  · simp only [if_true]
    split
    · cases hlines : self.lines with
      | none => simp [fetchCount, hl]
      | some lines =>
        simp only []
        split
        · simp [fetchCount_callIfGiven, hl]
        · simp [fetchCount, hl]
    · simp [fetchCount, hl]

theorem onSourceLoaded_fetch (splitLines : String → List String) (self : SourceFile)
    (response : Response) :
    fetchCount (self.onSourceLoaded splitLines response).events = 0 ∧
      ((self.loaded = true ∨ self.inProgress = true) →
        ((self.onSourceLoaded splitLines response).file.loaded = true ∨
          (self.onSourceLoaded splitLines response).file.inProgress = true)) := by
  unfold SourceFile.onSourceLoaded
  cases response.hasError
  · cases response.source with
    | none => simp [fetchCount]
    | some text =>
      simp only [Bool.false_eq_true, if_false]
      have hn := fetchCount_notifyAll self.callbacks (linesField (some (splitLines
        (String.mk (replaceCRLF text.data)))))
      rcases hna : notifyAll self.callbacks (linesField (some (splitLines
        (String.mk (replaceCRLF text.data))))) with ⟨evs, threw⟩
      rw [hna] at hn
      change fetchCount evs = 0 at hn
      cases threw
      · simp only [Bool.false_eq_true, if_false, fetchCount_append]
        refine ⟨?_, by simp⟩
        rw [hn]
        simp [fetchCount, Event.isFetch]
      · exact ⟨by simpa using hn, by simp⟩
  · simp [fetchCount]

theorem step_fetchedOnce (splitLines : String → List String) (w : World) (op : Op)
    (h : FetchedOnce w) : FetchedOnce (World.step splitLines w op) := by
  unfold FetchedOnce at h ⊢
  cases op with
  | getLine a n cb =>
    have hf := getLine_fetch a w.file n cb
    simp only [World.step, World.after, fetchCount_append]
    rcases h with h | ⟨h1, h2⟩
    · rcases hf with ⟨_, hle, hst⟩
      rcases Nat.le_one_iff_eq_zero_or_eq_one.mp hle with h0 | h1
      · left; omega
      · right; exact ⟨by omega, hst⟩
    · right
      exact ⟨by have := hf.1 h2; omega, hf.2.2⟩
  | loadScriptLines a cb =>
    have hf := loadScriptLines_fetch a w.file (.client cb)
    simp only [World.step, World.after, fetchCount_append]
    rcases h with h | ⟨h1, h2⟩
    · rcases hf with ⟨_, hle, hst⟩
      rcases Nat.le_one_iff_eq_zero_or_eq_one.mp hle with h0 | h1
      · left; omega
      · right; exact ⟨by omega, hst⟩
    · right
      exact ⟨by have := hf.1 h2; omega, hf.2.2⟩
  | completion r =>
    have hf := onSourceLoaded_fetch splitLines w.file r
    simp only [World.step]
    split
    · exact h
    · simp only [fetchCount_append, hf.1, Nat.add_zero]
      rcases h with h | ⟨h1, h2⟩
      · left; exact h
      · right; exact ⟨h1, hf.2 h2⟩

theorem run_fetchedOnce (splitLines : String → List String) (ops : List Op) :
    ∀ (w : World), FetchedOnce w → FetchedOnce (World.run splitLines w ops) := by
  induction ops with
  | nil => intro w h; exact h
  | cons op rest ih =>
    intro w h
    exact ih _ (step_fetchedOnce splitLines w op h)

/-- A successful completion: the unit becomes loaded with the split text, every
queued callback is run with those lines in queue order, then the notification
is dispatched. -/
theorem onSourceLoaded_success (splitLines : String → List String) (self : SourceFile)
    (response : Response) (text : String)
    (herr : response.hasError = false) (hsrc : response.source = some text) :
    self.onSourceLoaded splitLines response =
      ⟨{ self with
          loaded := true
          inProgress := false
          lines := some (splitLines (String.mk (replaceCRLF text.data)))
          contentType := response.contentType },
        self.callbacks.flatMap
            (Callback.deliver (splitLines (String.mk (replaceCRLF text.data)))) ++
          [.sourceLoaded { self with
            loaded := true
            inProgress := false
            lines := some (splitLines (String.mk (replaceCRLF text.data)))
            contentType := response.contentType }],
        .returned .undefined⟩ := by
  simp [SourceFile.onSourceLoaded, herr, hsrc, linesField, notifyAll_array]

/-- The first public call on a fresh unit: the unit becomes loading with that
one callback queued, and a fetch is outstanding exactly when the session had an
active thread client, in which case the fetch is all that was observed. -/
theorem step_fresh (splitLines : String → List String) (actor href : String)
    (isBlackBoxed : Bool) (op : Op) (hc : op.isCall = true) :
    ∃ (pending : Nat) (log : List Event),
      World.step splitLines (World.fresh actor href isBlackBoxed) op =
        ⟨{ SourceFile.create actor href isBlackBoxed with
            callbacks := op.registers, inProgress := true }, pending, log⟩ ∧
      (0 < pending → pending = 1 ∧ ∀ e ∈ log, e.isFetch = true) := by
  cases op with
  | completion r => simp [Op.isCall] at hc
  | loadScriptLines a cb =>
    cases a
    · exact ⟨0, [.called cb .null], by
        simp [World.step, World.after, World.fresh, SourceFile.loadScriptLines,
          SourceFile.create, Callback.invoke, LinesArg.toValue, fetchCount, Event.isFetch,
          Op.registers], by simp⟩
    · exact ⟨1, [.fetch { SourceFile.create actor href isBlackBoxed with
          callbacks := [.client cb], inProgress := true }], by
        simp [World.step, World.after, World.fresh, SourceFile.loadScriptLines,
          SourceFile.create, Op.registers, fetchCount, Event.isFetch], by
        simp [Event.isFetch]⟩
  | getLine a n cb =>
    cases a
    · by_cases hn : 0 ≤ n
      · exact ⟨0, [], by
          simp [World.step, World.after, World.fresh, SourceFile.getLine,
            SourceFile.loadScriptLines, SourceFile.create, Callback.invoke, hn, fetchCount,
            Op.registers], by simp⟩
      · exact ⟨0, callIfGiven cb .undefined, by
          have hz := fetchCount_callIfGiven cb .undefined
          simp [World.step, World.after, World.fresh, SourceFile.getLine,
            SourceFile.loadScriptLines, SourceFile.create, Callback.invoke, hn, hz,
            Op.registers], by simp⟩
    · exact ⟨1, [.fetch { SourceFile.create actor href isBlackBoxed with
          callbacks := [.lineReader n cb], inProgress := true }], by
        simp [World.step, World.after, World.fresh, SourceFile.getLine,
          SourceFile.loadScriptLines, SourceFile.create, Op.registers, fetchCount,
          Event.isFetch], by
        simp [Event.isFetch]⟩

/-- Public calls alone, from a fresh unit, with a fetch outstanding afterwards:
the unit is loading, the queue holds the callbacks of all the calls in call
order, exactly one fetch is outstanding and nothing but fetching was observed. -/
theorem run_calls_pending (splitLines : String → List String) (actor href : String)
    (isBlackBoxed : Bool) (ops : List Op) (hcalls : ∀ op ∈ ops, op.isCall = true)
    (hpending : 0 < (World.run splitLines (World.fresh actor href isBlackBoxed) ops).pending) :
    ∃ log : List Event,
      World.run splitLines (World.fresh actor href isBlackBoxed) ops =
        ⟨{ SourceFile.create actor href isBlackBoxed with
            callbacks := ops.flatMap Op.registers, inProgress := true }, 1, log⟩ ∧
      ∀ e ∈ log, e.isFetch = true := by
  cases ops with
  | nil => simp [World.run, World.fresh] at hpending
  | cons op rest =>
    have hop : op.isCall = true := hcalls op (List.mem_cons_self _ _)
    have hrest : ∀ o ∈ rest, o.isCall = true :=
      fun o ho => hcalls o (List.mem_cons_of_mem _ ho)
    obtain ⟨pending, log, hstep, hlog⟩ := step_fresh splitLines actor href isBlackBoxed op hop
    have hrun : World.run splitLines (World.fresh actor href isBlackBoxed) (op :: rest) =
        World.run splitLines
          (World.step splitLines (World.fresh actor href isBlackBoxed) op) rest := rfl
    rw [hrun, hstep, run_inProgress splitLines rest _ hrest rfl rfl] at hpending ⊢
    obtain ⟨hp1, hfetch⟩ := hlog hpending
    subst hp1
    exact ⟨log, by simp [List.flatMap_cons], hfetch⟩

/-- On a loaded unit `loadScriptLines` runs the caller's function with the lines
and returns them; the unit is untouched. -/
theorem loadScriptLines_loaded (activeThread : Bool) (self : SourceFile)
    (lines : List String) (callback : Nat)
    (hl : self.loaded = true) (hlines : self.lines = some lines) :
    self.loadScriptLines activeThread (.client callback) =
      ⟨self, [.called callback (.array lines)], .returned (.array lines)⟩ := by
  simp [SourceFile.loadScriptLines, hl, hlines, linesField, Callback.invoke,
    LinesArg.toValue]

theorem run_loadScriptLines_loaded (splitLines : String → List String) (activeThread : Bool)
    (self : SourceFile) (lines : List String) (callback : Nat)
    (hl : self.loaded = true) (hlines : self.lines = some lines) (n : Nat) :
    ∀ (pending : Nat) (log : List Event),
      World.run splitLines ⟨self, pending, log⟩
          (List.replicate n (.loadScriptLines activeThread callback)) =
        ⟨self, pending, log ++ List.replicate n (.called callback (.array lines))⟩ := by
  induction n with
  | zero => intro pending log; simp [World.run]
  | succ k ih =>
    intro pending log
    have hrun : World.run splitLines ⟨self, pending, log⟩
        (List.replicate (k + 1) (.loadScriptLines activeThread callback)) =
        World.run splitLines
          (World.step splitLines ⟨self, pending, log⟩
            (.loadScriptLines activeThread callback))
          (List.replicate k (.loadScriptLines activeThread callback)) := rfl
    have hstep : World.step splitLines ⟨self, pending, log⟩
        (.loadScriptLines activeThread callback) =
        ⟨self, pending, log ++ [.called callback (.array lines)]⟩ := by
      simp [World.step, World.after, loadScriptLines_loaded activeThread self lines callback
        hl hlines, fetchCount, Event.isFetch]
    rw [hrun, hstep, ih]
    simp [List.replicate_succ, List.append_assoc]

/-- An index inside an array reads a string. -/
theorem elementAt_in_range (lines : List String) (lineNo : Int)
    (h0 : 0 ≤ lineNo) (h1 : lineNo < (lines.length : Int)) :
    ∃ s, lines[lineNo.toNat]? = some s ∧ elementAt lines lineNo = .string s := by
  have hlt : lineNo.toNat < lines.length := by omega
  refine ⟨lines[lineNo.toNat], List.getElem?_eq_getElem hlt, ?_⟩
  simp [elementAt, Int.not_lt.mpr h0, List.getElem?_eq_getElem hlt]

/-- A call to `getLine` on a unit that is not loaded, when a load is in progress
or the session has an active thread client: the closure is queued, the unit is
loading, nothing but a fetch is observed and `undefined` is returned. -/
theorem getLine_waits (activeThread : Bool) (self : SourceFile) (lineNo : Int)
    (callback : Option Nat) (hl : self.loaded = false)
    (hfetch : activeThread = true ∨ self.inProgress = true) :
    ∃ evs : List Event,
      self.getLine activeThread lineNo callback =
        ⟨{ self with
            callbacks := self.callbacks ++ [.lineReader lineNo callback]
            inProgress := true }, evs, .returned .undefined⟩ ∧
      ∀ e ∈ evs, e.isFetch = true := by
  cases hp : self.inProgress
  · have ha : activeThread = true := by
      rcases hfetch with h | h
      · exact h
      · rw [hp] at h; exact absurd h (by simp)
    subst ha
    exact ⟨[.fetch { self with
        callbacks := self.callbacks ++ [.lineReader lineNo callback]
        inProgress := true }], by
      simp [SourceFile.getLine, SourceFile.loadScriptLines, hl, hp], by simp [Event.isFetch]⟩
  · refine ⟨[], ?_, by simp⟩
    rw [getLine_inProgress activeThread self lineNo callback hl hp]
    simp [← hp]

/-! ## The claims -/

/-- C1 (single-flight): on a unit that is neither loaded nor loading, in a
session with an active thread client, the first of N >= 1 calls to
`loadScriptLines` issues the fetch and sets the unit loading; after all N calls,
with no completion in between, the log still holds that one fetch and nothing
else, one fetch is outstanding, and the other calls have only appended their
callbacks to the queue, in call order. -/
theorem C1_single_flight (splitLines : String → List String) (self : SourceFile)
    (first : Nat) (rest : List Nat)
    (hl : self.loaded = false) (hp : self.inProgress = false) :
    World.step splitLines ⟨self, 0, []⟩ (.loadScriptLines true first) =
        ⟨{ self with callbacks := self.callbacks ++ [.client first], inProgress := true }, 1,
          [.fetch { self with
            callbacks := self.callbacks ++ [.client first], inProgress := true }]⟩ ∧
      World.run splitLines ⟨self, 0, []⟩ ((first :: rest).map (Op.loadScriptLines true)) =
        ⟨{ self with
            callbacks := self.callbacks ++ (first :: rest).map Callback.client,
            inProgress := true }, 1,
          [.fetch { self with
            callbacks := self.callbacks ++ [.client first], inProgress := true }]⟩ := by
  have hstep : World.step splitLines ⟨self, 0, []⟩ (.loadScriptLines true first) =
      ⟨{ self with callbacks := self.callbacks ++ [.client first], inProgress := true }, 1,
        [.fetch { self with
          callbacks := self.callbacks ++ [.client first], inProgress := true }]⟩ := by
    simp [World.step, World.after, SourceFile.loadScriptLines, hl, hp, fetchCount,
      Event.isFetch]
  refine ⟨hstep, ?_⟩
  have hrun : World.run splitLines ⟨self, 0, []⟩
      ((first :: rest).map (Op.loadScriptLines true)) =
      World.run splitLines (World.step splitLines ⟨self, 0, []⟩ (.loadScriptLines true first))
        (rest.map (Op.loadScriptLines true)) := rfl
  rw [hrun, hstep, run_inProgress splitLines _ _ (by simp [Op.isCall]) (by exact hl) rfl]
  simp [registers_loadScriptLines, List.append_assoc]

/-- C1 at a concrete unit: three calls on a fresh unit. -/
theorem C1_single_flight_witness :
    (SourceFile.create "actor1" "u.js" false).loaded = false ∧
      (SourceFile.create "actor1" "u.js" false).inProgress = false ∧
      World.run (fun s => [s]) ⟨SourceFile.create "actor1" "u.js" false, 0, []⟩
          ([7, 8, 9].map (Op.loadScriptLines true)) =
        ⟨{ SourceFile.create "actor1" "u.js" false with
            callbacks := [.client 7, .client 8, .client 9], inProgress := true }, 1,
          [.fetch { SourceFile.create "actor1" "u.js" false with
            callbacks := [.client 7], inProgress := true }]⟩ :=
  ⟨rfl, rfl,
    (C1_single_flight (fun s => [s]) (SourceFile.create "actor1" "u.js" false) 7 [8, 9]
      rfl rfl).2⟩

/-- C2 (FIFO delivery): take any sequence of public calls on a freshly
constructed unit after which a fetch is outstanding, and let that fetch complete
without error. Before the completion nothing but the fetch was observed, so no
registered callback had run. The completion stores the split text as the lines
of the unit and runs the callbacks registered by the calls, each once, in call
order, each with those same lines (a `getLine` closure hands its caller the
line it asked for), and then dispatches the notification. -/
theorem C2_fifo_delivery (splitLines : String → List String) (actor href : String)
    (isBlackBoxed : Bool) (ops : List Op) (response : Response) (text : String)
    (hcalls : ∀ op ∈ ops, op.isCall = true)
    (hpending : 0 < (World.run splitLines (World.fresh actor href isBlackBoxed) ops).pending)
    (herr : response.hasError = false) (hsrc : response.source = some text) :
    (∀ e ∈ (World.run splitLines (World.fresh actor href isBlackBoxed) ops).log,
        e.isFetch = true) ∧
      (World.step splitLines (World.run splitLines (World.fresh actor href isBlackBoxed) ops)
          (.completion response)).file.lines =
        some (splitLines (String.mk (replaceCRLF text.data))) ∧
      (World.step splitLines (World.run splitLines (World.fresh actor href isBlackBoxed) ops)
          (.completion response)).log =
        (World.run splitLines (World.fresh actor href isBlackBoxed) ops).log ++
          (ops.flatMap Op.registers).flatMap
            (Callback.deliver (splitLines (String.mk (replaceCRLF text.data)))) ++
          [.sourceLoaded (World.step splitLines
            (World.run splitLines (World.fresh actor href isBlackBoxed) ops)
            (.completion response)).file] := by
  obtain ⟨log, hrun, hlog⟩ :=
    run_calls_pending splitLines actor href isBlackBoxed ops hcalls hpending
  rw [hrun]
  refine ⟨hlog, ?_, ?_⟩
  · simp [World.step, onSourceLoaded_success splitLines _ response text herr hsrc]
  · simp [World.step, onSourceLoaded_success splitLines _ response text herr hsrc]

/-- C2 at a concrete history: three callers, the last one without a thread
client, then the answer to the fetch of the first. -/
theorem C2_fifo_delivery_witness :
    (∀ op ∈ [Op.loadScriptLines true 1, Op.getLine true 0 (some 2),
        Op.loadScriptLines false 3], op.isCall = true) ∧
      0 < (World.run (fun s => [s]) (World.fresh "actor1" "u.js" false)
        [Op.loadScriptLines true 1, Op.getLine true 0 (some 2),
          Op.loadScriptLines false 3]).pending ∧
      (World.step (fun s => [s]) (World.run (fun s => [s]) (World.fresh "actor1" "u.js" false)
          [Op.loadScriptLines true 1, Op.getLine true 0 (some 2),
            Op.loadScriptLines false 3])
          (.completion ⟨none, some "ab", some "text/javascript"⟩)).file.lines =
        some ["ab"] ∧
      (World.step (fun s => [s]) (World.run (fun s => [s]) (World.fresh "actor1" "u.js" false)
          [Op.loadScriptLines true 1, Op.getLine true 0 (some 2),
            Op.loadScriptLines false 3])
          (.completion ⟨none, some "ab", some "text/javascript"⟩)).log =
        [.fetch { SourceFile.create "actor1" "u.js" false with
            callbacks := [.client 1], inProgress := true },
          .called 1 (.array ["ab"]),
          .called 2 (.string "ab"),
          .called 3 (.array ["ab"]),
          .sourceLoaded { SourceFile.create "actor1" "u.js" false with
            callbacks := [.client 1, .lineReader 0 (some 2), .client 3]
            loaded := true
            lines := some ["ab"]
            contentType := some "text/javascript" }] :=
  ⟨by decide, by decide,
    (C2_fifo_delivery (fun s => [s]) "actor1" "u.js" false
      [Op.loadScriptLines true 1, Op.getLine true 0 (some 2), Op.loadScriptLines false 3]
      ⟨none, some "ab", some "text/javascript"⟩ "ab" (by decide) (by decide) rfl rfl).2.1,
    by decide⟩

/-- C3 (fetched at most once): whatever sequence of `getLine` calls,
`loadScriptLines` calls and fetch completions (successful or not) a freshly
constructed unit goes through, the Fetcher is invoked at most once in total. -/
theorem C3_fetched_at_most_once (splitLines : String → List String) (actor href : String)
    (isBlackBoxed : Bool) (ops : List Op) :
    fetchCount (World.run splitLines (World.fresh actor href isBlackBoxed) ops).log ≤ 1 := by
  have h := run_fetchedOnce splitLines ops (World.fresh actor href isBlackBoxed)
    (Or.inl (by simp [World.fresh, fetchCount]))
  rcases h with h | ⟨h, _⟩ <;> omega

/-- C4 (idempotent post-load reads): on a loaded unit `loadScriptLines(cb)` runs
`cb` once with the lines of the unit and nothing else (no fetch), returns those
lines and leaves the unit as it was; any number of such calls in a row leaves
the unit and the outstanding fetches as they were and adds one identical
invocation of `cb` per call. -/
theorem C4_idempotent_post_load (splitLines : String → List String) (activeThread : Bool)
    (self : SourceFile) (lines : List String) (callback : Nat) (n : Nat) (pending : Nat)
    (log : List Event) (hl : self.loaded = true) (hlines : self.lines = some lines) :
    self.loadScriptLines activeThread (.client callback) =
        ⟨self, [.called callback (.array lines)], .returned (.array lines)⟩ ∧
      World.run splitLines ⟨self, pending, log⟩
          (List.replicate n (.loadScriptLines activeThread callback)) =
        ⟨self, pending, log ++ List.replicate n (.called callback (.array lines))⟩ :=
  ⟨loadScriptLines_loaded activeThread self lines callback hl hlines,
    run_loadScriptLines_loaded splitLines activeThread self lines callback hl hlines n
      pending log⟩

/-- C4 at a concrete loaded unit, three calls in a row. -/
theorem C4_idempotent_post_load_witness :
    loadedSample.loaded = true ∧ loadedSample.lines = some ["a", "b"] ∧
      loadedSample.loadScriptLines false (.client 5) =
        ⟨loadedSample, [.called 5 (.array ["a", "b"])], .returned (.array ["a", "b"])⟩ ∧
      World.run (fun s => [s]) ⟨loadedSample, 0, []⟩
          (List.replicate 3 (.loadScriptLines false 5)) =
        ⟨loadedSample, 0, [] ++ List.replicate 3 (.called 5 (.array ["a", "b"]))⟩ :=
  ⟨rfl, rfl, C4_idempotent_post_load (fun s => [s]) false loadedSample ["a", "b"] 5 3 0 []
    rfl rfl⟩

/-- C5 (no connection, callback delivery): on a unit that is neither loaded nor
loading, in a session without an active thread client, `loadScriptLines(cb)`
runs `cb` once, with `null`, does nothing else (no fetch) and returns
`undefined`. -/
theorem C5_no_connection_callback (self : SourceFile) (callback : Nat)
    (hl : self.loaded = false) (hp : self.inProgress = false) :
    (self.loadScriptLines false (.client callback)).events = [.called callback .null] ∧
      (self.loadScriptLines false (.client callback)).outcome = .returned .undefined := by
  simp [SourceFile.loadScriptLines, hl, hp, Callback.invoke, LinesArg.toValue]

/-- C5 at a fresh unit. -/
theorem C5_no_connection_callback_witness :
    (SourceFile.create "actor1" "u.js" false).loaded = false ∧
      (SourceFile.create "actor1" "u.js" false).inProgress = false ∧
      ((SourceFile.create "actor1" "u.js" false).loadScriptLines false (.client 4)).events =
        [.called 4 .null] ∧
      ((SourceFile.create "actor1" "u.js" false).loadScriptLines false (.client 4)).outcome =
        .returned .undefined :=
  ⟨rfl, rfl, C5_no_connection_callback (SourceFile.create "actor1" "u.js" false) 4 rfl rfl⟩

/-- C6 (no connection, state): the code at the failing input. After
`loadScriptLines` on a fresh unit without a thread client the unit is marked in
progress and the callback is still queued; a second call, made with a thread
client, is taken for a call during a load: it issues no fetch and its callback
is not run. -/
theorem C6_no_connection_marks_in_progress :
    ((SourceFile.create "actor1" "u.js" false).loadScriptLines false (.client 1)).file =
        { SourceFile.create "actor1" "u.js" false with
          callbacks := [.client 1], inProgress := true } ∧
      (((SourceFile.create "actor1" "u.js" false).loadScriptLines false (.client 1)).file
          |>.loadScriptLines true (.client 2)).events = [] ∧
      fetchCount (World.run (fun s => [s]) (World.fresh "actor1" "u.js" false)
          [.loadScriptLines false 1, .loadScriptLines true 2]).log = 0 := by
  refine ⟨rfl, rfl, ?_⟩
  decide

/-- C7 (no exception crosses the public API): the code at the failing input.
`getLine(0, cb)` on a fresh unit without a thread client throws, and `cb` is not
run. -/
theorem C7_getLine_throws_without_connection :
    ((SourceFile.create "actor1" "u.js" false).getLine false 0 (some 1)).outcome = .threw ∧
      ((SourceFile.create "actor1" "u.js" false).getLine false 0 (some 1)).events = [] := by
  decide

/-- C8 (loaded, in range): on a loaded unit and for a line number inside the
array, `getLine` returns the string at that index and leaves the unit as it
was; with a callback it runs it once with that same string and does nothing
else, without one it does nothing at all. -/
theorem C8_getLine_loaded_in_range (activeThread : Bool) (self : SourceFile)
    (lines : List String) (lineNo : Int) (callback : Nat)
    (hl : self.loaded = true) (hlines : self.lines = some lines)
    (h0 : 0 ≤ lineNo) (h1 : lineNo < (lines.length : Int)) :
    ∃ s, lines[lineNo.toNat]? = some s ∧
      self.getLine activeThread lineNo (some callback) =
        ⟨self, [.called callback (.string s)], .returned (.string s)⟩ ∧
      self.getLine activeThread lineNo none = ⟨self, [], .returned (.string s)⟩ := by
  obtain ⟨s, hs, he⟩ := elementAt_in_range lines lineNo h0 h1
  exact ⟨s, hs, by simp [SourceFile.getLine, hl, hlines, h0, h1, he, callIfGiven],
    by simp [SourceFile.getLine, hl, hlines, h0, h1, he, callIfGiven]⟩

/-- C8 at line 1 of the two-line unit. -/
theorem C8_getLine_loaded_in_range_witness :
    loadedSample.loaded = true ∧ loadedSample.lines = some ["a", "b"] ∧
      (0 : Int) ≤ 1 ∧ (1 : Int) < (["a", "b"].length : Int) ∧
      ∃ s, ["a", "b"][(1 : Int).toNat]? = some s ∧
        loadedSample.getLine true 1 (some 6) =
          ⟨loadedSample, [.called 6 (.string s)], .returned (.string s)⟩ ∧
        loadedSample.getLine true 1 none = ⟨loadedSample, [], .returned (.string s)⟩ :=
  ⟨rfl, rfl, by decide, by decide,
    C8_getLine_loaded_in_range true loadedSample ["a", "b"] 1 6 rfl rfl (by decide)
      (by decide)⟩

/-- C9 (out of range): on a loaded unit and for a line number that is negative
or not below the number of lines, `getLine` returns `undefined`, runs no
callback, issues no fetch and leaves the unit as it was. -/
theorem C9_getLine_out_of_range (activeThread : Bool) (self : SourceFile)
    (lines : List String) (lineNo : Int) (callback : Option Nat)
    (hl : self.loaded = true) (hlines : self.lines = some lines)
    (hout : lineNo < 0 ∨ (lines.length : Int) ≤ lineNo) :
    self.getLine activeThread lineNo callback = ⟨self, [], .returned .undefined⟩ := by
  rcases hout with h | h
  · simp [SourceFile.getLine, hl, Int.not_le.mpr h]
  · by_cases h0 : 0 ≤ lineNo
    · simp [SourceFile.getLine, hl, hlines, h0, Int.not_lt.mpr h]
    · simp [SourceFile.getLine, hl, h0]

/-- C9 at `getLine(5)` on a three-line unit. -/
theorem C9_getLine_out_of_range_witness :
    ({ loadedSample with lines := some ["a", "b", "c"] } : SourceFile).loaded = true ∧
      ((5 : Int) < 0 ∨ ((["a", "b", "c"] : List String).length : Int) ≤ 5) ∧
      ({ loadedSample with lines := some ["a", "b", "c"] } : SourceFile).getLine true 5
          (some 6) =
        ⟨{ loadedSample with lines := some ["a", "b", "c"] }, [], .returned .undefined⟩ :=
  ⟨rfl, by decide,
    C9_getLine_out_of_range true { loadedSample with lines := some ["a", "b", "c"] }
      ["a", "b", "c"] 5 (some 6) rfl rfl (by decide)⟩

/-- C10 (`getLine` before the load): take a unit that is not loaded, with a load
in progress or a session that has an active thread client. `getLine(lineNo, cb)`
returns `undefined`, appends exactly one waiter (its closure) to the queue and
runs nothing but, at most, the fetch. Later public calls add nothing to the
log. When the outstanding fetch then completes without error, the completion
runs the callbacks queued before the call, then `cb` once, then the callbacks
of the later calls, then dispatches the notification; and what `cb` receives is
the string at `lineNo` of the loaded lines when `lineNo` is inside the array,
and `undefined` otherwise. -/
theorem C10_getLine_not_loaded (splitLines : String → List String) (self : SourceFile)
    (pending : Nat) (log : List Event) (activeThread : Bool) (lineNo : Int) (callback : Nat)
    (later : List Op) (response : Response) (text : String)
    (hl : self.loaded = false) (hfetch : activeThread = true ∨ self.inProgress = true)
    (hlater : ∀ op ∈ later, op.isCall = true)
    (hpending : 0 < (World.run splitLines (World.step splitLines ⟨self, pending, log⟩
      (.getLine activeThread lineNo (some callback))) later).pending)
    (herr : response.hasError = false) (hsrc : response.source = some text) :
    (self.getLine activeThread lineNo (some callback)).outcome = .returned .undefined ∧
      (self.getLine activeThread lineNo (some callback)).file.callbacks =
        self.callbacks ++ [.lineReader lineNo (some callback)] ∧
      (∀ e ∈ (self.getLine activeThread lineNo (some callback)).events, e.isFetch = true) ∧
      (World.run splitLines (World.step splitLines ⟨self, pending, log⟩
          (.getLine activeThread lineNo (some callback))) later).log =
        log ++ (self.getLine activeThread lineNo (some callback)).events ∧
      (World.step splitLines (World.run splitLines (World.step splitLines ⟨self, pending, log⟩
          (.getLine activeThread lineNo (some callback))) later) (.completion response)).log =
        log ++ (self.getLine activeThread lineNo (some callback)).events ++
          self.callbacks.flatMap
            (Callback.deliver (splitLines (String.mk (replaceCRLF text.data)))) ++
          [.called callback (lineOf (splitLines (String.mk (replaceCRLF text.data))) lineNo)] ++
          (later.flatMap Op.registers).flatMap
            (Callback.deliver (splitLines (String.mk (replaceCRLF text.data)))) ++
          [.sourceLoaded (World.step splitLines (World.run splitLines
            (World.step splitLines ⟨self, pending, log⟩
              (.getLine activeThread lineNo (some callback))) later)
            (.completion response)).file] ∧
      (0 ≤ lineNo → lineNo < ((splitLines (String.mk (replaceCRLF text.data))).length : Int) →
        ∃ s, (splitLines (String.mk (replaceCRLF text.data)))[lineNo.toNat]? = some s ∧
          lineOf (splitLines (String.mk (replaceCRLF text.data))) lineNo = .string s) ∧
      ((lineNo < 0 ∨ ((splitLines (String.mk (replaceCRLF text.data))).length : Int) ≤ lineNo) →
        lineOf (splitLines (String.mk (replaceCRLF text.data))) lineNo = .undefined) := by
  obtain ⟨evs, hget, hevs⟩ := getLine_waits activeThread self lineNo (some callback) hl hfetch
  have hstep : World.step splitLines ⟨self, pending, log⟩
      (.getLine activeThread lineNo (some callback)) =
      ⟨{ self with
          callbacks := self.callbacks ++ [.lineReader lineNo (some callback)]
          inProgress := true }, pending + fetchCount evs, log ++ evs⟩ := by
    simp [World.step, World.after, hget]
  rw [hstep, run_inProgress splitLines later _ hlater (by exact hl) rfl] at hpending ⊢
  rw [hget]
  refine ⟨rfl, rfl, hevs, rfl, ?_, ?_, ?_⟩
  · have hne : ¬ (pending + fetchCount evs = 0) := by
      simp only [] at hpending
      omega
    simp [World.step, hne, onSourceLoaded_success splitLines _ response text herr hsrc,
      Callback.deliver, callIfGiven, List.append_assoc]
  · intro h0 h1
    obtain ⟨s, hs, he⟩ := elementAt_in_range _ lineNo h0 h1
    exact ⟨s, hs, by simp [lineOf, h0, h1, he]⟩
  · intro hout
    rcases hout with h | h
    · simp [lineOf, Int.not_le.mpr h]
    · simp [lineOf, Int.not_lt.mpr h]

/-- C10 at a fresh unit: `getLine(1, cb)`, one more caller, then the answer,
split here into two equal lines. -/
theorem C10_getLine_not_loaded_witness :
    (SourceFile.create "actor1" "u.js" false).loaded = false ∧
      (∀ op ∈ [Op.loadScriptLines true 3], op.isCall = true) ∧
      0 < (World.run (fun s => [s, s]) (World.step (fun s => [s, s])
        ⟨SourceFile.create "actor1" "u.js" false, 0, []⟩ (.getLine true 1 (some 2)))
        [Op.loadScriptLines true 3]).pending ∧
      ((SourceFile.create "actor1" "u.js" false).getLine true 1 (some 2)).outcome =
        .returned .undefined ∧
      (World.step (fun s => [s, s]) (World.run (fun s => [s, s]) (World.step (fun s => [s, s])
          ⟨SourceFile.create "actor1" "u.js" false, 0, []⟩ (.getLine true 1 (some 2)))
          [Op.loadScriptLines true 3]) (.completion ⟨none, some "ab", none⟩)).log =
        [.fetch { SourceFile.create "actor1" "u.js" false with
            callbacks := [.lineReader 1 (some 2)], inProgress := true },
          .called 2 (.string "ab"),
          .called 3 (.array ["ab", "ab"]),
          .sourceLoaded { SourceFile.create "actor1" "u.js" false with
            callbacks := [.lineReader 1 (some 2), .client 3]
            loaded := true
            lines := some ["ab", "ab"] }] :=
  ⟨rfl, by decide, by decide,
    (C10_getLine_not_loaded (fun s => [s, s]) (SourceFile.create "actor1" "u.js" false) 0 []
      true 1 2 [Op.loadScriptLines true 3] ⟨none, some "ab", none⟩ "ab" rfl (Or.inl rfl)
      (by decide) (by decide) rfl rfl).1,
    by decide⟩

/-! ## Facts for the later claims -/

/-- The unit after `loadScriptLines`: untouched when loaded, otherwise in
progress with the callback appended. -/
theorem loadScriptLines_file (activeThread : Bool) (self : SourceFile) (callback : Callback) :
    (self.loaded = true ∧ (self.loadScriptLines activeThread callback).file = self) ∨
      (self.loaded = false ∧ (self.loadScriptLines activeThread callback).file =
        { self with callbacks := self.callbacks ++ [callback], inProgress := true }) := by
  unfold SourceFile.loadScriptLines
  cases hl : self.loaded
  · right
    cases hp : self.inProgress
    · cases activeThread
      · cases callback.invoke .null <;> simp
      · simp
    · simp [hp]
  · left
    cases callback.invoke (linesField self.lines) <;> simp

/-- The unit after `getLine`: untouched when loaded, otherwise in progress with
the closure appended. -/
theorem getLine_file (activeThread : Bool) (self : SourceFile) (lineNo : Int)
    (callback : Option Nat) :
    (self.loaded = true ∧ (self.getLine activeThread lineNo callback).file = self) ∨
      (self.loaded = false ∧ (self.getLine activeThread lineNo callback).file =
        { self with
          callbacks := self.callbacks ++ [.lineReader lineNo callback], inProgress := true }) := by
  cases hl : self.loaded
  · right
    have h := loadScriptLines_file activeThread self (.lineReader lineNo callback)
    rw [hl] at h
    simp only [Bool.false_eq_true, false_and, true_and, false_or] at h
    refine ⟨rfl, ?_⟩
    unfold SourceFile.getLine
    simp only [hl, Bool.false_eq_true, if_false]
    cases ho : (self.loadScriptLines activeThread (.lineReader lineNo callback)).outcome <;>
      simp [h]
  · left
    refine ⟨rfl, ?_⟩
    unfold SourceFile.getLine
    simp only [hl, if_true]
    split
    · cases self.lines with
      | none => rfl
      | some lines =>
        simp only []
        split <;> rfl
    · rfl

/-- The unit after `onSourceLoaded`: untouched, or loaded with the split text of
a response without error. -/
theorem onSourceLoaded_file (splitLines : String → List String) (self : SourceFile)
    (response : Response) :
    (self.onSourceLoaded splitLines response).file = self ∨
      ∃ text, response.hasError = false ∧ response.source = some text ∧
        (self.onSourceLoaded splitLines response).file =
          { self with
            loaded := true
            inProgress := false
            lines := some (splitLines (String.mk (replaceCRLF text.data)))
            contentType := response.contentType } := by
  cases herr : response.hasError
  · cases hsrc : response.source with
    | none => left; simp [SourceFile.onSourceLoaded, herr, hsrc]
    | some text =>
      right
      exact ⟨text, rfl, rfl, by rw [onSourceLoaded_success splitLines self response text herr hsrc]⟩
  · left; simp [SourceFile.onSourceLoaded, herr]

theorem replaceCRLF_no_CR (cs : List Char) (h : everyCRBeforeLF cs = true) :
    CR ∉ replaceCRLF cs := by
  induction cs with
  | nil => simp [replaceCRLF]
  | cons c rest ih =>
    simp only [everyCRBeforeLF, Bool.and_eq_true, Bool.or_eq_true, bne_iff_ne, ne_eq,
      beq_iff_eq] at h
    obtain ⟨hc, hrest⟩ := h
    have ih' := ih hrest
    by_cases hcr : c = CR
    · have hhead : rest.head? = some LF := by
        rcases hc with hc | hc
        · exact absurd hcr hc
        · exact hc
      have hcond : c = Char.ofNat 13 ∧ rest.head? = some (Char.ofNat 10) := ⟨hcr, hhead⟩
      simp only [replaceCRLF, hcond, and_self, if_true]
      exact ih'
    · have hcond : ¬ (c = Char.ofNat 13 ∧ rest.head? = some (Char.ofNat 10)) :=
        fun hh => hcr hh.1
      simp only [replaceCRLF, hcond, if_false, List.mem_cons, not_or]
      exact ⟨fun hh => hcr hh.symm, ih'⟩

theorem mem_splitAtLF (cs : List Char) :
    ∀ seg ∈ splitAtLF cs, ∀ c ∈ seg, c ∈ cs := by
  induction cs with
  | nil =>
    intro seg hseg c hc
    simp only [splitAtLF, List.mem_singleton] at hseg
    subst hseg
    exact absurd hc (List.not_mem_nil c)
  | cons c0 rest ih =>
    intro seg hseg c hc
    simp only [splitAtLF] at hseg
    split at hseg
    · rcases List.mem_cons.mp hseg with h | h
      · subst h; exact absurd hc (List.not_mem_nil c)
      · exact List.mem_cons_of_mem _ (ih seg h c hc)
    · split at hseg
      · simp only [List.mem_singleton] at hseg
        subst hseg
        simp only [List.mem_singleton] at hc
        subst hc
        exact List.mem_cons_self _ _
      · rename_i s ss hsplit
        rcases List.mem_cons.mp hseg with h | h
        · subst h
          rcases List.mem_cons.mp hc with h1 | h1
          · subst h1; exact List.mem_cons_self _ _
          · exact List.mem_cons_of_mem _ (ih s (by rw [hsplit]; exact List.mem_cons_self _ _) c h1)
        · exact List.mem_cons_of_mem _
            (ih seg (by rw [hsplit]; exact List.mem_cons_of_mem _ h) c hc)

/-- A character of a line of the split text is a character of the text. -/
theorem mem_splitLines (text : String) (line : String) (hline : line ∈ Str.splitLines text)
    (c : Char) (hc : c ∈ line.data) : c ∈ text.data := by
  simp only [Str.splitLines, List.mem_map] at hline
  obtain ⟨seg, hseg, rfl⟩ := hline
  exact mem_splitAtLF text.data seg hseg c hc

/-- No step touches the identity fields. -/
theorem step_identity (splitLines : String → List String) (w : World) (op : Op) :
    (World.step splitLines w op).file.actor = w.file.actor ∧
      (World.step splitLines w op).file.href = w.file.href ∧
      (World.step splitLines w op).file.isBlackBoxed = w.file.isBlackBoxed ∧
      (World.step splitLines w op).file.displayName = w.file.displayName := by
  cases op with
  | getLine a n cb =>
    simp only [World.step, World.after]
    rcases getLine_file a w.file n cb with ⟨_, h⟩ | ⟨_, h⟩ <;> simp [h]
  | loadScriptLines a cb =>
    simp only [World.step, World.after]
    rcases loadScriptLines_file a w.file (.client cb) with ⟨_, h⟩ | ⟨_, h⟩ <;> simp [h]
  | completion r =>
    simp only [World.step]
    split
    · simp
    · rcases onSourceLoaded_file splitLines w.file r with h | ⟨text, _, _, h⟩ <;> simp [h]

theorem run_identity (splitLines : String → List String) (ops : List Op) :
    ∀ (w : World),
      (World.run splitLines w ops).file.actor = w.file.actor ∧
        (World.run splitLines w ops).file.href = w.file.href ∧
        (World.run splitLines w ops).file.isBlackBoxed = w.file.isBlackBoxed ∧
        (World.run splitLines w ops).file.displayName = w.file.displayName := by
  induction ops with
  | nil => intro w; simp [World.run]
  | cons op rest ih =>
    intro w
    have hrun : World.run splitLines w (op :: rest) =
        World.run splitLines (World.step splitLines w op) rest := rfl
    obtain ⟨h1, h2, h3, h4⟩ := ih (World.step splitLines w op)
    obtain ⟨s1, s2, s3, s4⟩ := step_identity splitLines w op
    rw [hrun]
    exact ⟨h1.trans s1, h2.trans s2, h3.trans s3, h4.trans s4⟩

theorem dataWithLoad_fresh (actor href : String) (isBlackBoxed : Bool) :
    DataWithLoad (World.fresh actor href isBlackBoxed) := by
  simp [DataWithLoad, World.fresh, SourceFile.create]

/-- A public call keeps the agreement of flags, data and outstanding fetches. -/
theorem after_dataWithLoad (w : World) (r : Result) (cb : Callback)
    (hfile : (w.file.loaded = true ∧ r.file = w.file) ∨
      (w.file.loaded = false ∧ r.file =
        { w.file with callbacks := w.file.callbacks ++ [cb], inProgress := true }))
    (hfetch : ((w.file.loaded = true ∨ w.file.inProgress = true) → fetchCount r.events = 0) ∧
      fetchCount r.events ≤ 1)
    (h : DataWithLoad w) : DataWithLoad (w.after r) := by
  obtain ⟨hL, hN⟩ := h
  obtain ⟨hzero, hle⟩ := hfetch
  rcases hfile with ⟨hl, hf⟩ | ⟨hl, hf⟩
  · have h0 := hzero (Or.inl hl)
    obtain ⟨h1, h2, h3⟩ := hL hl
    refine ⟨fun _ => ?_, fun hcontra => ?_⟩
    · simp only [World.after, hf, h0]
      exact ⟨h1, h2, by omega⟩
    · simp only [World.after, hf] at hcontra
      rw [hl] at hcontra
      exact absurd hcontra (by simp)
  · obtain ⟨h1, h2, h3, h4⟩ := hN hl
    refine ⟨fun hcontra => ?_, fun _ => ?_⟩
    · simp only [World.after, hf] at hcontra
      rw [hl] at hcontra
      exact absurd hcontra (by simp)
    · simp only [World.after, hf]
      refine ⟨h1, h2, ?_, fun hcontra => absurd hcontra (by simp)⟩
      cases hp : w.file.inProgress
      · have := (h4 hp).1
        omega
      · have := hzero (Or.inr hp)
        omega

theorem step_dataWithLoad (splitLines : String → List String) (w : World) (op : Op)
    (h : DataWithLoad w) : DataWithLoad (World.step splitLines w op) := by
  cases op with
  | getLine a n cb =>
    have hf := getLine_fetch a w.file n cb
    exact after_dataWithLoad w _ (.lineReader n cb) (getLine_file a w.file n cb)
      ⟨hf.1, hf.2.1⟩ h
  | loadScriptLines a cb =>
    have hf := loadScriptLines_fetch a w.file (.client cb)
    exact after_dataWithLoad w _ (.client cb) (loadScriptLines_file a w.file (.client cb))
      ⟨hf.1, hf.2.1⟩ h
  | completion r =>
    simp only [World.step]
    split
    · exact h
    · rename_i hpending
      obtain ⟨hL, hN⟩ := h
      have hl : w.file.loaded = false := by
        cases hl : w.file.loaded
        · rfl
        · exact absurd (hL hl).2.2 hpending
      obtain ⟨h1, h2, h3, h4⟩ := hN hl
      have hp : w.file.inProgress = true := by
        cases hp : w.file.inProgress
        · exact absurd (h4 hp).1 hpending
        · rfl
      have hz := (onSourceLoaded_fetch splitLines w.file r).1
      rcases onSourceLoaded_file splitLines w.file r with hf | ⟨text, _, _, hf⟩
      · refine ⟨fun hcontra => ?_, fun _ => ?_⟩
        · simp only [hf] at hcontra
          rw [hl] at hcontra
          exact absurd hcontra (by simp)
        · simp only [hf, hz]
          refine ⟨h1, h2, by omega, fun hcontra => ?_⟩
          rw [hp] at hcontra
          exact absurd hcontra (by simp)
      · refine ⟨fun _ => ?_, fun hcontra => ?_⟩
        · simp only [hf, hz]
          refine ⟨by simp, by simp, by omega⟩
        · simp only [hf] at hcontra
          exact absurd hcontra (by simp)

theorem run_dataWithLoad (splitLines : String → List String) (ops : List Op) :
    ∀ (w : World), DataWithLoad w → DataWithLoad (World.run splitLines w ops) := by
  induction ops with
  | nil => intro w h; exact h
  | cons op rest ih =>
    intro w h
    exact ih _ (step_dataWithLoad splitLines w op h)

/-- Once the unit is loaded and no fetch is outstanding, no step changes the
unit or starts a fetch. -/
theorem step_loaded (splitLines : String → List String) (w : World) (op : Op)
    (hl : w.file.loaded = true) (hp : w.pending = 0) :
    (World.step splitLines w op).file = w.file ∧ (World.step splitLines w op).pending = 0 := by
  cases op with
  | getLine a n cb =>
    have hf := (getLine_fetch a w.file n cb).1 (Or.inl hl)
    rcases getLine_file a w.file n cb with ⟨_, h⟩ | ⟨hcontra, _⟩
    · simp [World.step, World.after, h, hf, hp]
    · rw [hl] at hcontra; exact absurd hcontra (by simp)
  | loadScriptLines a cb =>
    have hf := (loadScriptLines_fetch a w.file (.client cb)).1 (Or.inl hl)
    rcases loadScriptLines_file a w.file (.client cb) with ⟨_, h⟩ | ⟨hcontra, _⟩
    · simp [World.step, World.after, h, hf, hp]
    · rw [hl] at hcontra; exact absurd hcontra (by simp)
  | completion r => simp [World.step, hp]

theorem run_loaded (splitLines : String → List String) (ops : List Op) :
    ∀ (w : World), w.file.loaded = true → w.pending = 0 →
      (World.run splitLines w ops).file = w.file := by
  induction ops with
  | nil => intro w _ _; rfl
  | cons op rest ih =>
    intro w hl hp
    obtain ⟨hf, hp'⟩ := step_loaded splitLines w op hl hp
    have hrun : World.run splitLines w (op :: rest) =
        World.run splitLines (World.step splitLines w op) rest := rfl
    rw [hrun, ih _ (by rw [hf]; exact hl) hp', hf]

/-- A unit that is in progress with no fetch outstanding stays so: calls only
append to the queue and there is no completion left to run. -/
theorem run_stuck (splitLines : String → List String) (ops : List Op) :
    ∀ (w : World), w.file.loaded = false → w.file.inProgress = true → w.pending = 0 →
      World.run splitLines w ops =
        ⟨{ w.file with callbacks := w.file.callbacks ++ ops.flatMap Op.registers }, 0,
          w.log⟩ := by
  induction ops with
  | nil =>
    intro w _ _ hp
    cases w
    simp only [] at hp
    subst hp
    simp [World.run]
  | cons op rest ih =>
    intro w hl hip hp
    have hrun : World.run splitLines w (op :: rest) =
        World.run splitLines (World.step splitLines w op) rest := rfl
    have hstep : World.step splitLines w op =
        ⟨{ w.file with callbacks := w.file.callbacks ++ op.registers }, 0, w.log⟩ := by
      cases hc : op.isCall
      · cases op with
        | completion r =>
          cases w
          simp only [] at hp
          subst hp
          simp [World.step, Op.registers]
        | getLine a n cb => simp [Op.isCall] at hc
        | loadScriptLines a cb => simp [Op.isCall] at hc
      · rw [step_inProgress splitLines w op hc hl hip, hp]
    rw [hrun, hstep, ih _ (by exact hl) (by exact hip) rfl]
    simp [List.append_assoc]

theorem deliver_called (lines : List String) (cbs : List Callback) :
    ∀ e ∈ cbs.flatMap (Callback.deliver lines), ∃ id v, e = .called id v := by
  intro e he
  simp only [List.mem_flatMap] at he
  obtain ⟨cb, _, hcb⟩ := he
  cases cb with
  | client id =>
    simp only [Callback.deliver, List.mem_singleton] at hcb
    exact ⟨id, _, hcb⟩
  | lineReader n callback =>
    cases callback with
    | none => simp [Callback.deliver, callIfGiven] at hcb
    | some id =>
      simp only [Callback.deliver, callIfGiven, List.mem_singleton] at hcb
      exact ⟨id, _, hcb⟩

/-- The effects listed by the timeline are the events of `onSourceLoaded`. -/
theorem onSourceLoadedTimeline_events (splitLines : String → List String) (self : SourceFile)
    (response : Response) :
    (self.onSourceLoadedTimeline splitLines response).map Prod.snd =
      (self.onSourceLoaded splitLines response).events := by
  unfold SourceFile.onSourceLoadedTimeline SourceFile.onSourceLoaded
  cases response.hasError
  · cases response.source with
    | none => simp
    | some text =>
      simp only [Bool.false_eq_true, if_false]
      rcases notifyAll self.callbacks (linesField (some (splitLines
        (String.mk (replaceCRLF text.data))))) with ⟨evs, threw⟩
      cases threw <;> simp [Function.comp_def]
  · simp

/-- Every effect of `onSourceLoaded` happens with the unit as the call leaves
it. -/
theorem onSourceLoadedTimeline_file (splitLines : String → List String) (self : SourceFile)
    (response : Response) :
    ∀ p ∈ self.onSourceLoadedTimeline splitLines response,
      p.1 = (self.onSourceLoaded splitLines response).file := by
  unfold SourceFile.onSourceLoadedTimeline SourceFile.onSourceLoaded
  cases response.hasError
  · cases response.source with
    | none => simp
    | some text =>
      simp only [Bool.false_eq_true, if_false]
      rcases notifyAll self.callbacks (linesField (some (splitLines
        (String.mk (replaceCRLF text.data))))) with ⟨evs, threw⟩
      cases threw
      · intro p hp
        simp only [Bool.false_eq_true, if_false, List.mem_map] at hp ⊢
        obtain ⟨e, _, rfl⟩ := hp
        rfl
      · intro p hp
        simp only [if_true, List.mem_map] at hp ⊢
        obtain ⟨e, _, rfl⟩ := hp
        rfl
  · simp

/-- No step removes a callback from the queue. -/
theorem step_callbacks_prefix (splitLines : String → List String) (w : World) (op : Op) :
    w.file.callbacks <+: (World.step splitLines w op).file.callbacks := by
  cases op with
  | getLine a n cb =>
    simp only [World.step, World.after]
    rcases getLine_file a w.file n cb with ⟨_, h⟩ | ⟨_, h⟩
    · rw [h]
    · rw [h]; exact List.prefix_append _ _
  | loadScriptLines a cb =>
    simp only [World.step, World.after]
    rcases loadScriptLines_file a w.file (.client cb) with ⟨_, h⟩ | ⟨_, h⟩
    · rw [h]
    · rw [h]; exact List.prefix_append _ _
  | completion r =>
    simp only [World.step]
    split
    · exact List.prefix_refl _
    · rcases onSourceLoaded_file splitLines w.file r with h | ⟨text, _, _, h⟩ <;> simp [h]

/-- A completion leaves the queue as it is. -/
theorem completion_callbacks (splitLines : String → List String) (w : World)
    (response : Response) :
    (World.step splitLines w (.completion response)).file.callbacks = w.file.callbacks := by
  simp only [World.step]
  split
  · rfl
  · rcases onSourceLoaded_file splitLines w.file response with h | ⟨text, _, _, h⟩ <;> simp [h]

/-- What a successful completion stores, with the splitter of the spec: the
response text with every CRLF replaced by LF, then split into lines; for the
text "a\r\nb\r\nc" exactly "a", "b", "c"; and no carriage return at all when
each carriage return of the text is directly followed by a line feed. -/
theorem stored_lines_normalized (self : SourceFile) (response : Response)
    (text : String) (herr : response.hasError = false) (hsrc : response.source = some text) :
    (self.onSourceLoaded Str.splitLines response).file.lines =
        some (Str.splitLines (String.mk (replaceCRLF text.data))) ∧
      (∀ (unit : SourceFile) (contentType : Option String),
        (unit.onSourceLoaded Str.splitLines ⟨none, some "a\r\nb\r\nc", contentType⟩).file.lines =
          some ["a", "b", "c"]) ∧
      (everyCRBeforeLF text.data = true →
        ∀ line ∈ Str.splitLines (String.mk (replaceCRLF text.data)), CR ∉ line.data) := by
  refine ⟨?_, ?_, ?_⟩
  · rw [onSourceLoaded_success Str.splitLines self response text herr hsrc]
  · intro unit contentType
    rw [onSourceLoaded_success Str.splitLines unit ⟨none, some "a\r\nb\r\nc", contentType⟩
      "a\r\nb\r\nc" rfl rfl]
    have hsplit : Str.splitLines (String.mk (replaceCRLF "a\r\nb\r\nc".data)) =
        ["a", "b", "c"] := by decide
    exact congrArg some hsplit
  · intro hcr line hline hmem
    exact replaceCRLF_no_CR text.data hcr
      (mem_splitLines (String.mk (replaceCRLF text.data)) line hline CR hmem)

/-! ## The claims, continued -/

/-- C11 (line-ending normalization): the code at the failing input, the
response text "a\rb". The replacement of line 162 only drops a carriage return
that is directly followed by a line feed, so it leaves this text as it is,
carriage return included; whatever the splitter, the stored lines are the split
of "a\rb"; and with the splitter of the spec they are the single line "a\rb",
which contains the carriage return. -/
theorem C11_lone_carriage_return_is_kept :
    String.mk (replaceCRLF "a\rb".data) = "a\rb" ∧
      CR ∈ (String.mk (replaceCRLF "a\rb".data)).data ∧
      (∀ (splitLines : String → List String) (unit : SourceFile),
        (unit.onSourceLoaded splitLines ⟨none, some "a\rb", none⟩).file.lines =
          some (splitLines "a\rb")) ∧
      ((SourceFile.create "actor1" "u.js" false).onSourceLoaded Str.splitLines
        ⟨none, some "a\rb", none⟩).file.lines = some ["a\rb"] := by
  have htext : String.mk (replaceCRLF "a\rb".data) = "a\rb" := by decide
  refine ⟨htext, by decide, ?_, by decide⟩
  intro splitLines unit
  rw [onSourceLoaded_success splitLines unit ⟨none, some "a\rb", none⟩ "a\rb" rfl rfl]
  exact congrArg (fun t => some (splitLines t)) htext

/-- C12 (function resolution result), as amended: for a context with a debuggee
global and a function whose unwrapped debuggee value has a script, the source
link returned by `findSourceForFunction` has the url of the script, its start
line, and the kind "js". -/
theorem C12_function_resolution_result {Context Fn : Type}
    (getThreadDebuggeeGlobalForContext : Context → Option (DebuggeeGlobal Fn))
    (context : Context) (fn : Fn) (dbgGlobal : DebuggeeGlobal Fn) (dbgFn : DebuggerObject)
    (script : Script)
    (hglobal : getThreadDebuggeeGlobalForContext context = some dbgGlobal)
    (hfn : dbgGlobal.makeDebuggeeValueUnwrap fn = some dbgFn)
    (hscript : dbgFn.script = some script) :
    SourceFile.findSourceForFunction getThreadDebuggeeGlobalForContext fn context =
      some ⟨script.url, script.startLine, "js"⟩ := by
  simp [SourceFile.findSourceForFunction, SourceFile.findScriptForFunctionInContext, hglobal,
    hfn, hscript, SourceFile.getSourceLinkForScript]

/-- C12 at the script of the spec. -/
theorem C12_function_resolution_result_witness :
    SourceFile.findSourceForFunction fooGlobal 0 () = some ⟨"foo.js", 10, "js"⟩ :=
  C12_function_resolution_result fooGlobal () 0 ⟨fun _ => some ⟨some ⟨"foo.js", 10⟩⟩⟩
    ⟨some ⟨"foo.js", 10⟩⟩ ⟨"foo.js", 10⟩ rfl rfl rfl

/-- C12 as stated fails: for the script `foo.js`, line 10, the result is not the
reference of kind "script". -/
theorem C12_kind_is_not_script :
    SourceFile.findSourceForFunction fooGlobal 0 () ≠ some ⟨"foo.js", 10, "script"⟩ := by
  decide

/-- C13 (function resolution failure): `findScriptForFunctionInContext` returns
nothing exactly when the context has no debuggee global, or the function
unwraps to nothing, or the unwrapped value has no script; otherwise it returns
that script; and `findSourceForFunction` returns nothing in exactly the same
cases. -/
theorem C13_function_resolution_failure {Context Fn : Type}
    (getThreadDebuggeeGlobalForContext : Context → Option (DebuggeeGlobal Fn))
    (context : Context) (fn : Fn) :
    (SourceFile.findScriptForFunctionInContext getThreadDebuggeeGlobalForContext context fn =
          none ↔
        (getThreadDebuggeeGlobalForContext context = none ∨
          ∃ dbgGlobal, getThreadDebuggeeGlobalForContext context = some dbgGlobal ∧
            (dbgGlobal.makeDebuggeeValueUnwrap fn = none ∨
              ∃ dbgFn, dbgGlobal.makeDebuggeeValueUnwrap fn = some dbgFn ∧
                dbgFn.script = none))) ∧
      (∀ dbgGlobal dbgFn script,
        getThreadDebuggeeGlobalForContext context = some dbgGlobal →
        dbgGlobal.makeDebuggeeValueUnwrap fn = some dbgFn →
        dbgFn.script = some script →
        SourceFile.findScriptForFunctionInContext getThreadDebuggeeGlobalForContext context fn =
          some script) ∧
      (SourceFile.findSourceForFunction getThreadDebuggeeGlobalForContext fn context = none ↔
        SourceFile.findScriptForFunctionInContext getThreadDebuggeeGlobalForContext context fn =
          none) := by
  refine ⟨?_, ?_, ?_⟩
  · unfold SourceFile.findScriptForFunctionInContext
    cases hg : getThreadDebuggeeGlobalForContext context with
    | none => simp
    | some dbgGlobal =>
      cases hf : dbgGlobal.makeDebuggeeValueUnwrap fn with
      | none => simp [hf]
      | some dbgFn =>
        cases hs : dbgFn.script with
        | none => simp [hf, hs]
        | some script => simp [hf, hs]
  · intro dbgGlobal dbgFn script hg hf hs
    simp [SourceFile.findScriptForFunctionInContext, hg, hf, hs]
  · unfold SourceFile.findSourceForFunction
    cases SourceFile.findScriptForFunctionInContext getThreadDebuggeeGlobalForContext
      context fn <;> simp

/-- C14 (identity fields are fixed): after any sequence of `getLine` calls,
`loadScriptLines` calls and fetch completions on a freshly constructed unit,
`actor`, `href` and `isBlackBoxed` are the constructor arguments, and `getURL()`
and `getDisplayName()` both return the `href` of the constructor. -/
theorem C14_identity_fields_fixed (splitLines : String → List String) (actor href : String)
    (isBlackBoxed : Bool) (ops : List Op) :
    (World.run splitLines (World.fresh actor href isBlackBoxed) ops).file.actor = actor ∧
      (World.run splitLines (World.fresh actor href isBlackBoxed) ops).file.href = href ∧
      (World.run splitLines (World.fresh actor href isBlackBoxed) ops).file.isBlackBoxed =
        isBlackBoxed ∧
      (World.run splitLines (World.fresh actor href isBlackBoxed) ops).file.getURL = href ∧
      (World.run splitLines (World.fresh actor href isBlackBoxed) ops).file.getDisplayName =
        href := by
  obtain ⟨h1, h2, h3, h4⟩ := run_identity splitLines ops (World.fresh actor href isBlackBoxed)
  exact ⟨h1, h2, h3, h2, h4⟩

/-- C15 (completion handler, success ordering): on a response without error
that carries a source text, `onSourceLoaded` leaves the unit loaded, not in
progress, with the split text as lines and the content type of the response;
its effects are the queued callbacks run in queue order with those lines,
followed by one notification whose payload is the unit; the callbacks only run
caller functions, so that notification is the only one and comes last; and
every one of these effects happens with the unit already in that final state. -/
theorem C15_completion_success_order (splitLines : String → List String) (self : SourceFile)
    (response : Response) (text : String)
    (herr : response.hasError = false) (hsrc : response.source = some text) :
    (self.onSourceLoaded splitLines response).file =
        { self with
          loaded := true
          inProgress := false
          lines := some (splitLines (String.mk (replaceCRLF text.data)))
          contentType := response.contentType } ∧
      (self.onSourceLoaded splitLines response).events =
        self.callbacks.flatMap
            (Callback.deliver (splitLines (String.mk (replaceCRLF text.data)))) ++
          [.sourceLoaded (self.onSourceLoaded splitLines response).file] ∧
      (∀ e ∈ self.callbacks.flatMap
          (Callback.deliver (splitLines (String.mk (replaceCRLF text.data)))),
        ∃ id v, e = .called id v) ∧
      (self.onSourceLoadedTimeline splitLines response).map Prod.snd =
        (self.onSourceLoaded splitLines response).events ∧
      (∀ p ∈ self.onSourceLoadedTimeline splitLines response,
        p.1 = (self.onSourceLoaded splitLines response).file) := by
  refine ⟨?_, ?_, deliver_called _ _, onSourceLoadedTimeline_events splitLines self response,
    onSourceLoadedTimeline_file splitLines self response⟩
  · rw [onSourceLoaded_success splitLines self response text herr hsrc]
  · rw [onSourceLoaded_success splitLines self response text herr hsrc]

/-- C15 at a unit with two waiters: both run, then the notification, all three
with the unit loaded. -/
theorem C15_completion_success_order_witness :
    okResponse.hasError = false ∧ okResponse.source = some "ab" ∧
      (loadingSample.onSourceLoaded (fun s => [s]) okResponse).file =
        { loadingSample with
          loaded := true
          inProgress := false
          lines := some ["ab"]
          contentType := some "text/javascript" } ∧
      loadingSample.onSourceLoadedTimeline (fun s => [s]) okResponse =
        [((loadingSample.onSourceLoaded (fun s => [s]) okResponse).file,
            .called 1 (.array ["ab"])),
          ((loadingSample.onSourceLoaded (fun s => [s]) okResponse).file,
            .called 2 (.string "ab")),
          ((loadingSample.onSourceLoaded (fun s => [s]) okResponse).file,
            .sourceLoaded (loadingSample.onSourceLoaded (fun s => [s]) okResponse).file)] :=
  ⟨rfl, rfl,
    (C15_completion_success_order (fun s => [s]) loadingSample okResponse "ab" rfl rfl).1,
    by decide⟩

/-- C16 (completion handler, error response): on a response that carries an
error `onSourceLoaded` returns with the unit exactly as it was and without any
effect: no queued callback is run and no notification is dispatched. -/
theorem C16_completion_error (splitLines : String → List String) (self : SourceFile)
    (response : Response) (herr : response.hasError = true) :
    self.onSourceLoaded splitLines response = ⟨self, [], .returned .undefined⟩ ∧
      self.onSourceLoadedTimeline splitLines response = [] := by
  simp [SourceFile.onSourceLoaded, SourceFile.onSourceLoadedTimeline, herr]

/-- C16 at a unit with two waiters. -/
theorem C16_completion_error_witness :
    errorResponse.hasError = true ∧
      loadingSample.onSourceLoaded (fun s => [s]) errorResponse =
        ⟨loadingSample, [], .returned .undefined⟩ ∧
      loadingSample.onSourceLoadedTimeline (fun s => [s]) errorResponse = [] :=
  ⟨by decide, C16_completion_error (fun s => [s]) loadingSample errorResponse (by decide)⟩

/-- C17 (stuck after a fetch error): take any public calls on a fresh unit that
leave a fetch outstanding, let the fetch complete with an error, and let
anything follow. The unit is still not loaded and still in progress, its queue
holds the callbacks of all the calls, before and after the error, in call
order, no fetch is outstanding, and the log is what it was before the error:
fetching only, so no callback has run and no second fetch was issued. In that
state every `getLine` and every `loadScriptLines` call only appends its callback
and returns `undefined`. -/
theorem C17_stuck_after_fetch_error (splitLines : String → List String) (actor href : String)
    (isBlackBoxed : Bool) (history : List Op) (response : Response) (later : List Op)
    (hcalls : ∀ op ∈ history, op.isCall = true)
    (hpending :
      0 < (World.run splitLines (World.fresh actor href isBlackBoxed) history).pending)
    (herr : response.hasError = true) :
    World.run splitLines
        (World.step splitLines (World.run splitLines (World.fresh actor href isBlackBoxed)
          history) (.completion response)) later =
        ⟨{ SourceFile.create actor href isBlackBoxed with
            callbacks := (history ++ later).flatMap Op.registers, inProgress := true }, 0,
          (World.run splitLines (World.fresh actor href isBlackBoxed) history).log⟩ ∧
      (∀ e ∈ (World.run splitLines (World.fresh actor href isBlackBoxed) history).log,
        e.isFetch = true) ∧
      (∀ (stuck : SourceFile), stuck.loaded = false → stuck.inProgress = true →
        (∀ activeThread lineNo callback,
          stuck.getLine activeThread lineNo callback =
            ⟨{ stuck with callbacks := stuck.callbacks ++ [.lineReader lineNo callback] }, [],
              .returned .undefined⟩) ∧
        (∀ activeThread callback,
          stuck.loadScriptLines activeThread (.client callback) =
            ⟨{ stuck with callbacks := stuck.callbacks ++ [.client callback] }, [],
              .returned .undefined⟩)) := by
  obtain ⟨log, hrun, hlog⟩ :=
    run_calls_pending splitLines actor href isBlackBoxed history hcalls hpending
  rw [hrun]
  refine ⟨?_, hlog, ?_⟩
  · have hstep : World.step splitLines
        ⟨{ SourceFile.create actor href isBlackBoxed with
            callbacks := history.flatMap Op.registers, inProgress := true }, 1, log⟩
        (.completion response) =
        ⟨{ SourceFile.create actor href isBlackBoxed with
            callbacks := history.flatMap Op.registers, inProgress := true }, 0, log⟩ := by
      simp [World.step, SourceFile.onSourceLoaded, herr, fetchCount]
    rw [hstep, run_stuck splitLines later _ rfl rfl rfl]
    simp [List.flatMap_append]
  · intro stuck hl hp
    exact ⟨fun a n cb => getLine_inProgress a stuck n cb hl hp,
      fun a cb => loadScriptLines_inProgress a stuck (.client cb) hl hp⟩

/-- C17 at a concrete history: one caller, the error, then two more callers. -/
theorem C17_stuck_after_fetch_error_witness :
    (∀ op ∈ [Op.loadScriptLines true 1], op.isCall = true) ∧
      0 < (World.run (fun s => [s]) (World.fresh "actor1" "u.js" false)
        [Op.loadScriptLines true 1]).pending ∧
      errorResponse.hasError = true ∧
      World.run (fun s => [s])
        (World.step (fun s => [s]) (World.run (fun s => [s]) (World.fresh "actor1" "u.js" false)
          [Op.loadScriptLines true 1]) (.completion errorResponse))
        [Op.getLine true 0 (some 2), Op.loadScriptLines true 3] =
        ⟨{ SourceFile.create "actor1" "u.js" false with
            callbacks := [.client 1, .lineReader 0 (some 2), .client 3], inProgress := true },
          0,
          [.fetch { SourceFile.create "actor1" "u.js" false with
            callbacks := [.client 1], inProgress := true }]⟩ :=
  ⟨by decide, by decide, by decide,
    (C17_stuck_after_fetch_error (fun s => [s]) "actor1" "u.js" false
      [Op.loadScriptLines true 1] errorResponse
      [Op.getLine true 0 (some 2), Op.loadScriptLines true 3] (by decide) (by decide)
      (by decide)).1⟩

/-- C18 (pending queue), as amended: in every state reached from a fresh unit
the queue is empty unless the unit is in progress or loaded; no step ever
removes a callback from the queue; and a completion, successful or not, leaves
the queue exactly as it was, so that after a successful completion the loaded
unit still holds the callbacks it has just run. -/
theorem C18_pending_queue (splitLines : String → List String) (actor href : String)
    (isBlackBoxed : Bool) (ops : List Op) (op : Op) (response : Response) :
    ((World.run splitLines (World.fresh actor href isBlackBoxed) ops).file.callbacks = [] ∨
        (World.run splitLines (World.fresh actor href isBlackBoxed) ops).file.inProgress =
          true ∨
        (World.run splitLines (World.fresh actor href isBlackBoxed) ops).file.loaded = true) ∧
      (World.run splitLines (World.fresh actor href isBlackBoxed) ops).file.callbacks <+:
        (World.step splitLines (World.run splitLines (World.fresh actor href isBlackBoxed) ops)
          op).file.callbacks ∧
      (World.step splitLines (World.run splitLines (World.fresh actor href isBlackBoxed) ops)
          (.completion response)).file.callbacks =
        (World.run splitLines (World.fresh actor href isBlackBoxed) ops).file.callbacks := by
  refine ⟨?_, step_callbacks_prefix splitLines _ op, completion_callbacks splitLines _ response⟩
  obtain ⟨_, hN⟩ := run_dataWithLoad splitLines ops _
    (dataWithLoad_fresh actor href isBlackBoxed)
  cases hl : (World.run splitLines (World.fresh actor href isBlackBoxed) ops).file.loaded
  · cases hp : (World.run splitLines (World.fresh actor href isBlackBoxed) ops).file.inProgress
    · exact Or.inl ((hN hl).2.2.2 hp).2
    · exact Or.inr (Or.inl rfl)
  · exact Or.inr (Or.inr rfl)

/-- C18 as stated fails: after one call and the successful completion of its
fetch the unit is loaded, not in progress, and its queue still holds the
callback. -/
theorem C18_queue_not_drained :
    (World.run (fun s => [s]) (World.fresh "actor1" "u.js" false)
        [.loadScriptLines true 1, .completion okResponse]).file.loaded = true ∧
      (World.run (fun s => [s]) (World.fresh "actor1" "u.js" false)
        [.loadScriptLines true 1, .completion okResponse]).file.inProgress = false ∧
      (World.run (fun s => [s]) (World.fresh "actor1" "u.js" false)
        [.loadScriptLines true 1, .completion okResponse]).file.callbacks = [.client 1] := by
  decide

/-- C19 (data present only when loaded): in every state reached from a fresh
unit, `lines` is defined exactly when the unit is loaded; while the unit is not
loaded `contentType` is still the initial null; and once `lines` is defined,
whatever follows leaves it as it is. -/
theorem C19_data_only_when_loaded (splitLines : String → List String) (actor href : String)
    (isBlackBoxed : Bool) (ops more : List Op) :
    (World.run splitLines (World.fresh actor href isBlackBoxed) ops).file.lines.isSome =
        (World.run splitLines (World.fresh actor href isBlackBoxed) ops).file.loaded ∧
      ((World.run splitLines (World.fresh actor href isBlackBoxed) ops).file.loaded = false →
        (World.run splitLines (World.fresh actor href isBlackBoxed) ops).file.contentType =
          none) ∧
      ((World.run splitLines (World.fresh actor href isBlackBoxed) ops).file.lines.isSome =
          true →
        (World.run splitLines (World.run splitLines (World.fresh actor href isBlackBoxed) ops)
          more).file.lines =
          (World.run splitLines (World.fresh actor href isBlackBoxed) ops).file.lines) := by
  obtain ⟨hL, hN⟩ := run_dataWithLoad splitLines ops _
    (dataWithLoad_fresh actor href isBlackBoxed)
  cases hl : (World.run splitLines (World.fresh actor href isBlackBoxed) ops).file.loaded
  · obtain ⟨h1, h2, _, _⟩ := hN hl
    refine ⟨by rw [h1]; rfl, fun _ => h2, fun hsome => ?_⟩
    rw [h1] at hsome
    exact absurd hsome (by simp)
  · obtain ⟨h1, _, h3⟩ := hL hl
    refine ⟨h1, fun hcontra => absurd hcontra (by simp), fun _ => ?_⟩
    rw [run_loaded splitLines more _ hl h3]

/-- C19 at a concrete history: once loaded, a further completion and further
calls leave the lines as they are. -/
theorem C19_data_only_when_loaded_witness :
    (World.run (fun s => [s]) (World.fresh "actor1" "u.js" false)
        [.loadScriptLines true 1, .completion okResponse]).file.lines.isSome = true ∧
      (World.run (fun s => [s]) (World.run (fun s => [s]) (World.fresh "actor1" "u.js" false)
          [.loadScriptLines true 1, .completion okResponse])
          [.completion ⟨none, some "other", none⟩, .getLine true 0 none,
            .loadScriptLines true 2]).file.lines =
        (World.run (fun s => [s]) (World.fresh "actor1" "u.js" false)
          [.loadScriptLines true 1, .completion okResponse]).file.lines :=
  ⟨by decide,
    (C19_data_only_when_loaded (fun s => [s]) "actor1" "u.js" false
      [.loadScriptLines true 1, .completion okResponse]
      [.completion ⟨none, some "other", none⟩, .getLine true 0 none,
        .loadScriptLines true 2]).2.2 (by decide)⟩

/-- C20 (well-formed load state): in every state reached from a fresh unit the
flags `loaded` and `inProgress` are not both true, and once `loaded` is true it
is still true after whatever follows. -/
theorem C20_well_formed_load_state (splitLines : String → List String) (actor href : String)
    (isBlackBoxed : Bool) (ops more : List Op) :
    ¬ ((World.run splitLines (World.fresh actor href isBlackBoxed) ops).file.loaded = true ∧
        (World.run splitLines (World.fresh actor href isBlackBoxed) ops).file.inProgress =
          true) ∧
      ((World.run splitLines (World.fresh actor href isBlackBoxed) ops).file.loaded = true →
        (World.run splitLines (World.run splitLines (World.fresh actor href isBlackBoxed) ops)
          more).file.loaded = true) := by
  obtain ⟨hL, _⟩ := run_dataWithLoad splitLines ops _
    (dataWithLoad_fresh actor href isBlackBoxed)
  refine ⟨fun ⟨hl, hp⟩ => ?_, fun hl => ?_⟩
  · rw [(hL hl).2.1] at hp
    exact absurd hp (by simp)
  · rw [run_loaded splitLines more _ hl (hL hl).2.2]
    exact hl

/-- C20 at a concrete history: the loaded unit stays loaded through a further
completion and further calls. -/
theorem C20_well_formed_load_state_witness :
    (World.run (fun s => [s]) (World.fresh "actor1" "u.js" false)
        [.getLine true 0 none, .completion okResponse]).file.loaded = true ∧
      (World.run (fun s => [s]) (World.run (fun s => [s]) (World.fresh "actor1" "u.js" false)
          [.getLine true 0 none, .completion okResponse])
          [.completion errorResponse, .loadScriptLines false 2]).file.loaded = true :=
  ⟨by decide,
    (C20_well_formed_load_state (fun s => [s]) "actor1" "u.js" false
      [.getLine true 0 none, .completion okResponse]
      [.completion errorResponse, .loadScriptLines false 2]).2 (by decide)⟩

end Firebug
